import Mathlib

/-!
Verification of the graph data model of tree-sitter-graph (src/graph.rs).

The Rust module is shallowly embedded as follows:

* `HashMap` fields (the attribute backing store and the syntax-node table) are
  modeled as association lists.  The list order stands for the iteration order
  of the map, which in Rust is arbitrary but fixed for a given map instance;
  insertion appends, and replacing a value through an occupied entry keeps the
  position of the entry, as `HashMap::insert` through `Entry::Occupied` does.
* The `u32` ids are modeled as `Nat`: no arithmetic is ever performed on them
  (they are allocated sequentially and compared), so overflow is irrelevant.
* `smallvec::SmallVec` is an inline-optimized vector; it is modeled as `List`.
* Rust `Result` values are modeled with `Except` (`Except.ok` for `Ok`,
  `Except.error` for `Err`); the mutable-reference payloads of
  `GraphNode::add_edge` are modeled as the index of the edge in the list,
  which is what a handle into the edge vector denotes.
* `slice::binary_search_by_key` is embedded as `bsLoop`, the standard-library
  binary-search loop written with explicit fuel (the fuel bounds the number of
  iterations; `right - left` shrinks at every step, so `ks.length` is enough).
* `tree_sitter::Node` is an external collaborator; the code only uses its
  `id`, `kind` and `start_position` accessors, so it is modeled as a record
  of those three fields.
-/

namespace TSG

/-- Attribute names; `Identifier` in the crate is an interned string compared
bytewise, modeled as `String` compared by code points. -/
abbrev Identifier := String

/-- Model of `tree_sitter::Point` (row and column of a source position). -/
structure Point where
  row : Nat
  column : Nat
deriving DecidableEq

/-- Model of `tree_sitter::Node`, restricted to the three accessors
`id`, `kind` and `start_position` that src/graph.rs uses. -/
structure Node where
  id : Nat
  kind : String
  start_position : Point
deriving DecidableEq

/-- Model of `SyntaxNodeRef` from src/graph.rs: numeric id, kind label and
start position, carried by value. -/
structure SyntaxNodeRef where
  index : Nat
  kind : String
  position : Point
deriving DecidableEq

/-- Model of `GraphNodeRef` from src/graph.rs: an opaque arena index. -/
structure GraphNodeRef where
  id : Nat
deriving DecidableEq

/-- Strict bytewise lexicographic order on character lists, the order that
`Ord` on Rust strings implements (identifiers here are ASCII, where code-point
order and byte order agree). -/
def charListLt : List Char → List Char → Bool
  | [], [] => false
  | [], _ :: _ => true
  | _ :: _, [] => false
  | a :: as, b :: bs =>
    if a.toNat < b.toNat then true
    else if b.toNat < a.toNat then false
    else charListLt as bs

/-- Strict lexicographic order on identifiers. -/
def identLt (a b : Identifier) : Bool := charListLt a.data b.data

/-- Reflexive lexicographic order on identifiers, as a proposition. -/
def identLe (a b : Identifier) : Prop := ¬ identLt b a = true

instance : DecidableRel identLe := fun _ _ => instDecidableNot

/-- Model of the `Value` enum from src/graph.rs.  `Integer` holds a `u32`,
modeled as `Nat`; `Set` holds a `BTreeSet<Value>`, modeled as the list of the
elements of the set in its ascending iteration order. -/
inductive Value where
  | Null : Value
  | Boolean (b : Bool) : Value
  | Integer (n : Nat) : Value
  | String (s : Identifier) : Value
  | List (vs : List Value) : Value
  | Set (vs : List Value) : Value
  | SyntaxNode (r : SyntaxNodeRef) : Value
  | GraphNode (r : GraphNodeRef) : Value

/-- Escapes of a single character inside the Rust debug formatting of a
string (the write of a string attribute value uses the debug format).  The
escapes quoted here cover the characters a DSL string literal can contain
per the escape set of the external grammar. -/
def escapeChar (c : Char) : String :=
  if c = '"' then "\\\""
  else if c = '\\' then "\\\\"
  else if c = '\n' then "\\n"
  else if c = '\r' then "\\r"
  else if c = '\t' then "\\t"
  else if c = Char.ofNat 0 then "\\0"
  else String.singleton c

/-- Rust debug formatting of a string: quotes around the escaped body. -/
def stringDebug (s : String) : String :=
  "\"" ++ String.join (s.data.map escapeChar) ++ "\""

mutual

/-- Model of `impl Display for Value` from src/graph.rs. -/
def Value.display : Value → String
  | .Null => "#null"
  | .Boolean b => if b then "#true" else "#false"
  | .Integer n => toString n
  | .String s => stringDebug s
  | .List vs => "[" ++ displayCommaSep vs ++ "]"
  | .Set vs => "\x7b" ++ displayCommaSep vs ++ "\x7d"
  | .SyntaxNode r =>
    "[syntax node " ++ r.kind ++ " (" ++ toString (r.position.row + 1) ++ ", "
      ++ toString (r.position.column + 1) ++ ")]"
  | .GraphNode r => "[graph node " ++ toString r.id ++ "]"

/-- Comma-separated rendering of list and set elements, as the first-element
flag loop of the Rust display implementation produces it. -/
def displayCommaSep : List Value → String
  | [] => ""
  | [v] => Value.display v
  | v :: w :: rest => Value.display v ++ ", " ++ displayCommaSep (w :: rest)

end

/-- Modelled from the spec: the error enum lives in the execution module of
the crate, which is not part of the sources under verification; §7 lists its
kinds.  Only the six type-coercion variants are constructed by src/graph.rs,
each carrying the formatted description of the value actually seen. -/
inductive ExecutionError where
  | ExpectedBoolean (msg : String)
  | ExpectedInteger (msg : String)
  | ExpectedString (msg : String)
  | ExpectedList (msg : String)
  | ExpectedGraphNode (msg : String)
  | ExpectedSyntaxNode (msg : String)
deriving DecidableEq

/-- Model of `Value::is_null`. -/
def Value.is_null : Value → Bool
  | .Null => true
  | _ => false

/-- Model of `Value::into_boolean`. -/
def Value.into_boolean : Value → Except ExecutionError Bool
  | .Boolean value => .ok value
  | v => .error (.ExpectedBoolean ("got " ++ v.display))

/-- Model of `Value::as_boolean`. -/
def Value.as_boolean : Value → Except ExecutionError Bool
  | .Boolean value => .ok value
  | v => .error (.ExpectedBoolean ("got " ++ v.display))

/-- Model of `Value::into_integer`. -/
def Value.into_integer : Value → Except ExecutionError Nat
  | .Integer value => .ok value
  | v => .error (.ExpectedInteger ("got " ++ v.display))

/-- Model of `Value::as_integer`. -/
def Value.as_integer : Value → Except ExecutionError Nat
  | .Integer value => .ok value
  | v => .error (.ExpectedInteger ("got " ++ v.display))

/-- List of values, as a named type usable inside the `Value` namespace,
where a bare `List` would denote the constructor. -/
abbrev ValueList : Type := List Value

/-- Model of `Value::into_string`. -/
def Value.into_string : Value → Except ExecutionError Identifier
  | .String value => .ok value
  | v => .error (.ExpectedString ("got " ++ v.display))

/-- Model of `Value::as_str`; the borrowed slice is modeled as the string. -/
def Value.as_str : Value → Except ExecutionError Identifier
  | .String value => .ok value
  | v => .error (.ExpectedString ("got " ++ v.display))

/-- Model of `Value::into_list`. -/
def Value.into_list : Value → Except ExecutionError ValueList
  | .List values => .ok values
  | v => .error (.ExpectedList ("got " ++ v.display))

/-- Model of `Value::as_list`. -/
def Value.as_list : Value → Except ExecutionError ValueList
  | .List values => .ok values
  | v => .error (.ExpectedList ("got " ++ v.display))

/-- Model of `Value::into_graph_node_ref`. -/
def Value.into_graph_node_ref : Value → Except ExecutionError GraphNodeRef
  | .GraphNode node => .ok node
  | v => .error (.ExpectedGraphNode ("got " ++ v.display))

/-- Model of `Value::as_graph_node_ref`. -/
def Value.as_graph_node_ref : Value → Except ExecutionError GraphNodeRef
  | .GraphNode node => .ok node
  | v => .error (.ExpectedGraphNode ("got " ++ v.display))

/-- Model of `Value::into_syntax_node_ref`. -/
def Value.into_syntax_node_ref : Value → Except ExecutionError SyntaxNodeRef
  | .SyntaxNode node => .ok node
  | v => .error (.ExpectedSyntaxNode ("got " ++ v.display))

/-- Model of `Value::as_syntax_node_ref`. -/
def Value.as_syntax_node_ref : Value → Except ExecutionError SyntaxNodeRef
  | .SyntaxNode node => .ok node
  | v => .error (.ExpectedSyntaxNode ("got " ++ v.display))

/-- First-match lookup in an association list, the model of map lookup. -/
def alookup {κ β : Type} [DecidableEq κ] : List (κ × β) → κ → Option β
  | [], _ => none
  | (k, v) :: rest, key => if k = key then some v else alookup rest key

/-- Replacement of the value stored under a key, keeping the position of the
entry, the model of an insert through an occupied map entry. -/
def areplace {κ β : Type} [DecidableEq κ] : List (κ × β) → κ → β → List (κ × β)
  | [], _, _ => []
  | (k, v0) :: rest, key, v =>
    if k = key then (k, v) :: rest else (k, v0) :: areplace rest key v

/-- Model of the `Attributes` struct: the `HashMap` backing store is an
association list whose order is the iteration order of the map. -/
structure Attributes where
  values : List (Identifier × Value)

/-- Model of `Attributes::new`. -/
def Attributes.new : Attributes := ⟨[]⟩

/-- Model of `Attributes::add`: through the entry API, an occupied entry gets
its value replaced and the call reports `Err(())`; a vacant entry gets the
value inserted and the call reports `Ok(())`. -/
def Attributes.add (a : Attributes) (name : Identifier) (value : Value) :
    Attributes × Except Unit Unit :=
  match alookup a.values name with
  | some _ => (⟨areplace a.values name value⟩, .error ())
  | none => (⟨a.values ++ [(name, value)]⟩, .ok ())

/-- Model of `Attributes::get`. -/
def Attributes.get (a : Attributes) (name : Identifier) : Option Value :=
  alookup a.values name

/-- Model of `Attributes::iter`. -/
def Attributes.iter (a : Attributes) : List (Identifier × Value) := a.values

/-- Model of `impl Display for Attributes`: collect the keys, sort them (the
Rust side sorts with the comparator of `Identifier`, a stable sort by the
bytewise order), and print one indented line per key with the value looked up
in the map.  The lookup cannot miss since the keys come from the map; the
model totalizes it with a default. -/
def Attributes.displayString (a : Attributes) : String :=
  let keys := List.insertionSort identLe (a.values.map Prod.fst)
  String.join (keys.map (fun key =>
    "  " ++ key ++ ": " ++ Value.display ((alookup a.values key).getD Value.Null) ++ "\n"))

/-- Model of the `Edge` struct from src/graph.rs. -/
structure Edge where
  attributes : Attributes

/-- Model of `Edge::new`. -/
def Edge.new : Edge := ⟨Attributes.new⟩

/-- Loop body of the standard-library slice binary search that
`binary_search_by_key` runs over the sorted edge vector, with explicit fuel.
While the window is nonempty the probe sits at its midpoint; a key below the
target discards the left half inclusive of the probe, a key above the target
discards the right half from the probe on, and a hit returns the probe index
on the left of the sum; an empty window returns the insertion point on the
right.  Each iteration at least halves the window, so any fuel of at least
the initial window size makes the zero-fuel branch unreachable. -/
def bsLoop (ks : List Nat) (target : Nat) : Nat → Nat → Nat → Sum Nat Nat
  | 0, left, _ => Sum.inr left
  | fuel + 1, left, right =>
    if left < right then
      let mid := left + (right - left) / 2
      let k := ks.getD mid 0
      if k < target then bsLoop ks target fuel (mid + 1) right
      else if target < k then bsLoop ks target fuel left mid
      else Sum.inl mid
    else Sum.inr left

/-- Model of `slice::binary_search_by_key` over the list of keys:
`Sum.inl i` is `Ok(i)` (the key sits at index `i`), `Sum.inr i` is `Err(i)`
(the key is absent and `i` is its sorted insertion point). -/
def binary_search (ks : List Nat) (target : Nat) : Sum Nat Nat :=
  bsLoop ks target ks.length 0 ks.length

/-- Model of the `GraphNode` struct from src/graph.rs: the outgoing edges,
keyed by sink index and kept sorted by it, and the attribute set. -/
structure GraphNode where
  outgoing_edges : List (Nat × Edge)
  attributes : Attributes

/-- Model of `GraphNode::new`. -/
def GraphNode.new : GraphNode := ⟨[], Attributes.new⟩

/-- Model of `GraphNode::add_edge`: binary search on the sink index; on a hit
the existing edge is returned through `Err`, otherwise a fresh edge is
inserted at the reported insertion point and returned through `Ok`.  The edge
handle is modeled by the index of the edge in the vector, paired with the
possibly updated node. -/
def GraphNode.add_edge (node : GraphNode) (sink : GraphNodeRef) :
    GraphNode × Except Nat Nat :=
  match binary_search (node.outgoing_edges.map Prod.fst) sink.id with
  | Sum.inl index => (node, .error index)
  | Sum.inr index =>
    ({ node with
        outgoing_edges := node.outgoing_edges.insertIdx index (sink.id, Edge.new) },
      .ok index)

/-- Model of `GraphNode::get_edge`: binary search on the sink index, then the
edge at the found index, if any. -/
def GraphNode.get_edge (node : GraphNode) (sink : GraphNodeRef) : Option Edge :=
  match binary_search (node.outgoing_edges.map Prod.fst) sink.id with
  | Sum.inl index => (node.outgoing_edges.get? index).map Prod.snd
  | Sum.inr _ => none

/-- Model of `GraphNode::iter_edges`. -/
def GraphNode.iter_edges (node : GraphNode) : List (GraphNodeRef × Edge) :=
  node.outgoing_edges.map (fun e => (⟨e.1⟩, e.2))

/-- Model of `GraphNode::edge_count`. -/
def GraphNode.edge_count (node : GraphNode) : Nat :=
  node.outgoing_edges.length

/-- Model of the `Graph` struct from src/graph.rs: the syntax-node table (a
`HashMap` keyed by syntax-node id, modeled as an association list) and the
graph-node arena (a growable vector). -/
structure Graph where
  syntax_nodes : List (Nat × Node)
  graph_nodes : List GraphNode

/-- Model of `Graph::new` (the `Default` instance: both stores empty). -/
def Graph.new : Graph := ⟨[], []⟩

/-- Model of `Graph::add_syntax_node`: the returned reference carries the id,
kind and start position of the node; the table entry for the id is inserted
only when vacant. -/
def Graph.add_syntax_node (g : Graph) (node : Node) : SyntaxNodeRef × Graph :=
  let index := node.id
  let node_ref : SyntaxNodeRef :=
    { index := index, kind := node.kind, position := node.start_position }
  match alookup g.syntax_nodes index with
  | some _ => (node_ref, g)
  | none => (node_ref, { g with syntax_nodes := g.syntax_nodes ++ [(index, node)] })

/-- Model of `Graph::add_graph_node`: push a fresh empty node and return the
reference to the slot it was pushed into. -/
def Graph.add_graph_node (g : Graph) : GraphNodeRef × Graph :=
  let index := g.graph_nodes.length
  (⟨index⟩, { g with graph_nodes := g.graph_nodes ++ [GraphNode.new] })

/-- Model of `Graph::iter_nodes`: references to the indices zero up to the
node count. -/
def Graph.iter_nodes (g : Graph) : List GraphNodeRef :=
  (List.range g.graph_nodes.length).map (fun i => ⟨i⟩)

/-- Model of `Graph::node_count`. -/
def Graph.node_count (g : Graph) : Nat := g.graph_nodes.length

/-- Model of `impl Index of GraphNodeRef for Graph`, totalized as an option:
the Rust indexing panics exactly when this returns `none`. -/
def Graph.getNode (g : Graph) (r : GraphNodeRef) : Option GraphNode :=
  g.graph_nodes.get? r.id

/-- Model of `Graph::pretty_print`: for every node in arena order, the node
line followed by the display of its attribute set, then one edge line per
stored outgoing edge followed by the display of the attributes of the edge. -/
def Graph.pretty_print (g : Graph) : String :=
  String.join (g.graph_nodes.enum.map (fun p =>
    "node " ++ toString p.1 ++ "\n" ++ p.2.attributes.displayString ++
    String.join (p.2.outgoing_edges.map (fun e =>
      "edge " ++ toString p.1 ++ " -> " ++ toString e.1 ++ "\n"
        ++ e.2.attributes.displayString))))

/-- Structured document tree produced by the serde serialization, with object
fields kept in emission order. -/
inductive Json where
  | null : Json
  | bool (b : Bool) : Json
  | num (n : Nat) : Json
  | str (s : String) : Json
  | arr (elems : List Json) : Json
  | obj (fields : List (Identifier × Json)) : Json

mutual

/-- Model of `impl Serialize for Value` from src/graph.rs. -/
def Value.serialize : Value → Json
  | .Null => .null
  | .Boolean value => .bool value
  | .Integer value => .num value
  | .String value => .str value
  | .List list => .obj [("type", .str "list"), ("values", .arr (serializeElems list))]
  | .Set set => .obj [("type", .str "set"), ("values", .arr (serializeElems set))]
  | .SyntaxNode node => .obj [("type", .str "syntaxNode"), ("value", .num node.index)]
  | .GraphNode node => .obj [("type", .str "graphNode"), ("value", .num node.id)]

/-- Elementwise serialization of a sequence of values. -/
def serializeElems : List Value → List Json
  | [] => []
  | v :: rest => Value.serialize v :: serializeElems rest

end

/-- Model of `impl Serialize for Attributes` from src/graph.rs: one map entry
per backing-store entry, in the iteration order of the backing store, with no
sorting applied. -/
def Attributes.serialize (a : Attributes) : Json :=
  .obj (a.values.map (fun p => (p.1, p.2.serialize)))

/-- Model of `SerializeGraphNodeEdge` from src/graph.rs. -/
def serializeEdge (e : Nat × Edge) : Json :=
  .obj [("sink", .num e.1), ("attrs", e.2.attributes.serialize)]

/-- Model of `SerializeGraphNode` from src/graph.rs. -/
def serializeNode (p : Nat × GraphNode) : Json :=
  .obj [("id", .num p.1),
        ("edges", .arr (p.2.outgoing_edges.map serializeEdge)),
        ("attrs", p.2.attributes.serialize)]

/-- Model of `impl Serialize for Graph` from src/graph.rs: the sequence of
node records in arena order. -/
def Graph.serialize (g : Graph) : Json :=
  .arr (g.graph_nodes.enum.map serializeNode)

def Attributes.wf (a : Attributes) : Prop := (a.values.map Prod.fst).Nodup

/-- Well-formedness of a graph node: the outgoing edges are strictly sorted
by sink index, and the attribute stores of the node and of its edges are
maps. -/
def GraphNode.wf (n : GraphNode) : Prop :=
  List.Pairwise (· < ·) (n.outgoing_edges.map Prod.fst) ∧ n.attributes.wf ∧
    ∀ e ∈ n.outgoing_edges, e.2.attributes.wf

/-- Well-formedness of a graph: every node in the arena is well-formed. -/
def Graph.wf (g : Graph) : Prop := ∀ n ∈ g.graph_nodes, n.wf

/-- Mutation of one arena slot in place, the model of access through
`IndexMut` for `GraphNodeRef` followed by a mutation of the node. -/
def Graph.updateNode (g : Graph) (r : GraphNodeRef) (f : GraphNode → GraphNode) : Graph :=
  match g.graph_nodes.get? r.id with
  | some n => { g with graph_nodes := g.graph_nodes.set r.id (f n) }
  | none => g

/-- Mutation of the attribute set of one outgoing edge in place, the model of
access through `get_edge_mut` followed by a mutation of the attributes of the
edge. -/
def GraphNode.updateEdgeAttrs (n : GraphNode) (sink : GraphNodeRef)
    (f : Attributes → Attributes) : GraphNode :=
  match binary_search (n.outgoing_edges.map Prod.fst) sink.id with
  | Sum.inl index =>
    match n.outgoing_edges.get? index with
    | some e => { n with outgoing_edges := n.outgoing_edges.set index (e.1, ⟨f e.2.attributes⟩) }
    | none => n
  | Sum.inr _ => n

/-- One observable mutation of a graph.  These are the mutations the library
exposes on a built graph: interning a syntax node, allocating a graph node,
creating an edge, and writing an attribute of a node or of an edge; the
statement interpreter of the crate builds every graph through them. -/
inductive Step : Graph → Graph → Prop
  | add_syntax_node (g : Graph) (n : Node) : Step g (g.add_syntax_node n).2
  | add_graph_node (g : Graph) : Step g (g.add_graph_node).2
  | add_edge (g : Graph) (r sink : GraphNodeRef) :
      Step g (g.updateNode r (fun node => (node.add_edge sink).1))
  | add_node_attr (g : Graph) (r : GraphNodeRef) (name : Identifier) (v : Value) :
      Step g (g.updateNode r
        (fun node => { node with attributes := (node.attributes.add name v).1 }))
  | add_edge_attr (g : Graph) (r sink : GraphNodeRef) (name : Identifier) (v : Value) :
      Step g (g.updateNode r
        (fun node => node.updateEdgeAttrs sink (fun a => (a.add name v).1)))

/-- Elements of a serialized sequence; empty on the other shapes. -/
def Json.elems : Json → List Json
  | .arr xs => xs
  | _ => []

/-- Fields of a serialized map; empty on the other shapes. -/
def Json.objFields : Json → List (Identifier × Json)
  | .obj fs => fs
  | _ => []

/-- Value of a field of a serialized map, defaulting to null. -/
def Json.field (j : Json) (k : Identifier) : Json :=
  (alookup j.objFields k).getD .null

/-- Numeric payload of a serialized number; zero on the other shapes. -/
def Json.asNum : Json → Nat
  | .num n => n
  | _ => 0

/-- The id fields of the node records of the serialized graph, in emission
order. -/
def serializedNodeIds (g : Graph) : List Nat :=
  g.serialize.elems.map (fun nj => (nj.field "id").asNum)

/-- Per node record of the serialized graph, the keys of its attrs map in
emission order. -/
def serializedNodeAttrKeys (g : Graph) : List (List Identifier) :=
  g.serialize.elems.map (fun nj => ((nj.field "attrs").objFields).map Prod.fst)

/-- Per node record of the serialized graph, the sink fields of its edge
records in emission order. -/
def serializedEdgeSinks (g : Graph) : List (List Nat) :=
  g.serialize.elems.map (fun nj =>
    ((nj.field "edges").elems).map (fun ej => (ej.field "sink").asNum))

/-- Per node record and then per edge record of the serialized graph, the
keys of the attrs map of the edge in emission order. -/
def serializedEdgeAttrKeys (g : Graph) : List (List (List Identifier)) :=
  g.serialize.elems.map (fun nj =>
    ((nj.field "edges").elems).map (fun ej =>
      ((ej.field "attrs").objFields).map Prod.fst))

/-- The ordering property the claim asserts of the structured serialization
of a graph: node records in arena-index order, the edge records of each node
in ascending sink order, and the keys of every attrs map (of nodes and of
edges) in strictly ascending lexicographic order. -/
def serializationDeterministicClaim (g : Graph) : Prop :=
  serializedNodeIds g = List.range g.node_count ∧
  (∀ sinks ∈ serializedEdgeSinks g, List.Pairwise (· < ·) sinks) ∧
  (∀ ks ∈ serializedNodeAttrKeys g, List.Pairwise (fun a b => identLt a b = true) ks) ∧
  (∀ kss ∈ serializedEdgeAttrKeys g, ∀ ks ∈ kss,
    List.Pairwise (fun a b => identLt a b = true) ks)

/-- A concrete graph built through the library operations: one graph node
whose attribute b is written before its attribute a, so the backing store
iterates b before a. -/
def gBad : Graph :=
  (((Graph.new.add_graph_node).2.updateNode ⟨0⟩
      (fun node => { node with attributes := (node.attributes.add "b" (Value.Integer 1)).1 })).updateNode ⟨0⟩
    (fun node => { node with attributes := (node.attributes.add "a" (Value.Integer 2)).1 }))

/-- Order on attribute entries by key, used by the specification text of the
pretty dump. -/
def pairLe (p q : Identifier × Value) : Prop := identLe p.1 q.1

instance : DecidableRel pairLe := fun p q =>
  (inferInstance : Decidable (identLe p.1 q.1))

/-- Order on stored edges by sink index, used by the specification text of
the pretty dump. -/
def edgeLe (a b : Nat × Edge) : Prop := a.1 ≤ b.1

instance : DecidableRel edgeLe := fun a b => Nat.decLe a.1 b.1

/-- Modelled from the spec: the attribute block of the pretty-text dump, one
line per attribute with lexicographically ordered keys; stated by sorting
the attribute entries themselves by key. -/
def specAttributesText (a : Attributes) : String :=
  String.join ((List.insertionSort pairLe a.values).map (fun p =>
    "  " ++ p.1 ++ ": " ++ p.2.display ++ "\n"))

/-- Modelled from the spec: the deterministic pretty-text dump of §6 — per
node in index order, a node line, its attributes with lexicographically
ordered keys, then one edge line per outgoing edge in ascending sink order,
each followed by the attributes of the edge in the same order. -/
def specPrettyPrint (g : Graph) : String :=
  String.join (g.graph_nodes.enum.map (fun p =>
    "node " ++ toString p.1 ++ "\n" ++ specAttributesText p.2.attributes ++
    String.join ((List.insertionSort edgeLe p.2.outgoing_edges).map (fun e =>
      "edge " ++ toString p.1 ++ " -> " ++ toString e.1 ++ "\n"
        ++ specAttributesText e.2.attributes))))

/-- A concrete two-node graph used to instantiate the universally quantified
theorems: nodes 0 and 1, an edge from 0 to 1 carrying attribute p, and
attribute name on node 0 (the worked example of §8 of the spec). -/
def gExample : Graph :=
  ((((Graph.new.add_graph_node).2.add_graph_node).2.updateNode ⟨0⟩
      (fun node => (node.add_edge ⟨1⟩).1)).updateNode ⟨0⟩
    (fun node => { node with attributes := (node.attributes.add "name" (Value.String "x")).1 })).updateNode ⟨0⟩
    (fun node => node.updateEdgeAttrs ⟨1⟩ (fun a => (a.add "p" (Value.Integer 10)).1))

theorem bsLoop_spec (ks : List Nat) (target : Nat)
    (hsorted : List.Pairwise (· < ·) ks) :
    ∀ fuel left right, right - left ≤ fuel → left ≤ right → right ≤ ks.length →
      (∀ j, j < left → ks.getD j 0 < target) →
      (∀ j, right ≤ j → j < ks.length → target < ks.getD j 0) →
      (∀ i, bsLoop ks target fuel left right = Sum.inl i →
        i < ks.length ∧ ks.getD i 0 = target) ∧
      (∀ i, bsLoop ks target fuel left right = Sum.inr i →
        i ≤ ks.length ∧ (∀ j, j < i → ks.getD j 0 < target) ∧
        (∀ j, i ≤ j → j < ks.length → target < ks.getD j 0)) := by
  have hmono : ∀ i j, i < j → j < ks.length → ks.getD i 0 < ks.getD j 0 := by
    intro i j hij hj
    have hi : i < ks.length := lt_trans hij hj
    rw [List.getD_eq_getElem ks 0 hi, List.getD_eq_getElem ks 0 hj]
    exact List.pairwise_iff_getElem.mp hsorted i j hi hj hij
  intro fuel
  induction fuel with
  | zero =>
    intro left right hf hlr hrl hlo hhi
    have heq : left = right := by omega
    refine ⟨fun i h => by simp [bsLoop] at h, fun i h => ?_⟩
    simp only [bsLoop, Sum.inr.injEq] at h
    subst h
    exact ⟨by omega, hlo, fun j hj₁ hj₂ => hhi j (by omega) hj₂⟩
  | succ fuel ih =>
    intro left right hf hlr hrl hlo hhi
    by_cases hlt : left < right
    · have hmidlt : left + (right - left) / 2 < right := by omega
      have hmidlen : left + (right - left) / 2 < ks.length := by omega
      by_cases hk₁ : ks.getD (left + (right - left) / 2) 0 < target
      · have hrec := ih (left + (right - left) / 2 + 1) right (by omega) (by omega) hrl
          (by
            intro j hj
            rcases Nat.lt_or_ge j left with hjl | hjl
            · exact hlo j hjl
            · rcases Nat.lt_or_ge j (left + (right - left) / 2) with hjm | hjm
              · exact lt_trans (hmono j _ hjm hmidlen) hk₁
              · have : j = left + (right - left) / 2 := by omega
                rw [this]; exact hk₁)
          hhi
        simpa only [bsLoop, if_pos hlt, if_pos hk₁] using hrec
      · by_cases hk₂ : target < ks.getD (left + (right - left) / 2) 0
        · have hrec := ih left (left + (right - left) / 2) (by omega) (by omega) (by omega)
            hlo
            (by
              intro j hj₁ hj₂
              rcases Nat.lt_or_ge j right with hjr | hjr
              · rcases Nat.lt_or_eq_of_le hj₁ with hjm | hjm
                · exact lt_trans hk₂ (hmono _ j hjm hj₂)
                · rw [← hjm]; exact hk₂
              · exact hhi j hjr hj₂)
          simpa only [bsLoop, if_pos hlt, if_neg hk₁, if_pos hk₂] using hrec
        · have heq : ks.getD (left + (right - left) / 2) 0 = target := by omega
          constructor
          · intro i h
            simp only [bsLoop, if_pos hlt, if_neg hk₁, if_neg hk₂, Sum.inl.injEq] at h
            subst h
            exact ⟨hmidlen, heq⟩
          · intro i h
            simp only [bsLoop, if_pos hlt, if_neg hk₁, if_neg hk₂] at h
            exact Sum.noConfusion h
    · have heq : left = right := by omega
      refine ⟨fun i h => by simp [bsLoop, if_neg hlt] at h, fun i h => ?_⟩
      simp only [bsLoop, if_neg hlt, Sum.inr.injEq] at h
      subst h
      exact ⟨by omega, hlo, fun j hj₁ hj₂ => hhi j (by omega) hj₂⟩

/-- On a strictly sorted key list, a successful binary search returns an index
that holds the target. -/
theorem binary_search_inl (ks : List Nat) (target : Nat) (i : Nat)
    (hsorted : List.Pairwise (· < ·) ks)
    (h : binary_search ks target = Sum.inl i) :
    i < ks.length ∧ ks.getD i 0 = target :=
  (bsLoop_spec ks target hsorted ks.length 0 ks.length (by omega) (by omega) (le_refl _)
    (fun j hj => absurd hj (Nat.not_lt_zero j))
    (fun j hj₁ hj₂ => absurd hj₂ (by omega))).1 i h

/-- On a strictly sorted key list, a failed binary search returns the sorted
insertion point of the target: everything before it is smaller and everything
from it on is larger. -/
theorem binary_search_inr (ks : List Nat) (target : Nat) (i : Nat)
    (hsorted : List.Pairwise (· < ·) ks)
    (h : binary_search ks target = Sum.inr i) :
    i ≤ ks.length ∧ (∀ j, j < i → ks.getD j 0 < target) ∧
      (∀ j, i ≤ j → j < ks.length → target < ks.getD j 0) :=
  (bsLoop_spec ks target hsorted ks.length 0 ks.length (by omega) (by omega) (le_refl _)
    (fun j hj => absurd hj (Nat.not_lt_zero j))
    (fun j hj₁ hj₂ => absurd hj₂ (by omega))).2 i h

/-- On a strictly sorted key list, a failed binary search means the target is
absent. -/
theorem binary_search_inr_not_mem (ks : List Nat) (target : Nat) (i : Nat)
    (hsorted : List.Pairwise (· < ·) ks)
    (h : binary_search ks target = Sum.inr i) : target ∉ ks := by
  intro hmem
  obtain ⟨j, hj, hje⟩ := List.mem_iff_getElem.mp hmem
  obtain ⟨-, hlo, hhi⟩ := binary_search_inr ks target i hsorted h
  rcases Nat.lt_or_ge j i with hji | hji
  · have := hlo j hji
    rw [List.getD_eq_getElem ks 0 hj, hje] at this
    omega
  · have := hhi j hji hj
    rw [List.getD_eq_getElem ks 0 hj, hje] at this
    omega

/-- Mapping a function over an insertion inserts the image. -/
theorem map_insertIdx {α β : Type} (f : α → β) :
    ∀ (l : List α) (i : Nat) (a : α),
      (l.insertIdx i a).map f = (l.map f).insertIdx i (f a) := by
  intro l
  induction l with
  | nil => intro i a; cases i <;> simp [List.insertIdx]
  | cons x xs ih =>
    intro i a
    cases i with
    | zero => simp [List.insertIdx]
    | succ i => simp [List.insertIdx_succ_cons, ih]

/-- Inserting a value at its sorted insertion point keeps a strictly sorted
list strictly sorted. -/
theorem pairwise_lt_insertIdx (ks : List Nat) (i s : Nat) (hi : i ≤ ks.length)
    (hsorted : List.Pairwise (· < ·) ks)
    (hlo : ∀ j, j < i → ks.getD j 0 < s)
    (hhi : ∀ j, i ≤ j → j < ks.length → s < ks.getD j 0) :
    List.Pairwise (· < ·) (ks.insertIdx i s) := by
  have hlen : (ks.insertIdx i s).length = ks.length + 1 := List.length_insertIdx i ks hi
  have hmono : ∀ a b, a < b → b < ks.length → ks.getD a 0 < ks.getD b 0 := by
    intro a b hab hb
    have ha : a < ks.length := lt_trans hab hb
    rw [List.getD_eq_getElem ks 0 ha, List.getD_eq_getElem ks 0 hb]
    exact List.pairwise_iff_getElem.mp hsorted a b ha hb hab
  rw [List.pairwise_iff_getElem]
  intro a b ha hb hab
  have hgeta : ∀ (j : Nat) (hj : j < (ks.insertIdx i s).length),
      (ks.insertIdx i s)[j] =
        if j < i then ks.getD j 0
        else if j = i then s
        else ks.getD (j - 1) 0 := by
    intro j hj
    by_cases hlt : j < i
    · rw [if_pos hlt]
      rw [List.getD_eq_getElem ks 0 (by omega)]
      exact List.getElem_insertIdx_of_lt ks s i j hlt (by omega)
    · rw [if_neg hlt]
      by_cases hje : j = i
      · rw [if_pos hje]
        subst hje
        exact List.getElem_insertIdx_self ks s j hi
      · rw [if_neg hje]
        have hk : i + (j - 1 - i) < ks.length := by omega
        have h2 := List.getElem_insertIdx_add_succ ks s i (j - 1 - i) hk
        have hidx : i + (j - 1 - i) + 1 = j := by omega
        have hidx2 : i + (j - 1 - i) = j - 1 := by omega
        simp only [hidx] at h2
        simp only [hidx2] at h2
        rw [List.getD_eq_getElem ks 0 (by omega)]
        exact h2
  rw [hgeta a ha, hgeta b hb]
  by_cases hai : a < i <;> by_cases hbi : b < i
  · rw [if_pos hai, if_pos hbi]
    exact hmono a b hab (by omega)
  · rw [if_pos hai, if_neg hbi]
    by_cases hbe : b = i
    · rw [if_pos hbe]
      exact hlo a hai
    · rw [if_neg hbe]
      exact hmono a (b - 1) (by omega) (by omega)
  · omega
  · rw [if_neg hai, if_neg hbi]
    by_cases hae : a = i
    · rw [if_pos hae, if_neg (by omega : ¬ b = i)]
      exact hhi (b - 1) (by omega) (by omega)
    · rw [if_neg hae, if_neg (by omega : ¬ b = i)]
      exact hmono (a - 1) (b - 1) (by omega) (by omega)

theorem alookup_append_self {κ β : Type} [DecidableEq κ] (l : List (κ × β)) (k : κ) (v : β)
    (h : alookup l k = none) : alookup (l ++ [(k, v)]) k = some v := by
  induction l with
  | nil => simp [alookup]
  | cons x xs ih =>
    simp only [alookup] at h ⊢
    by_cases hx : x.1 = k
    · simp [hx] at h
    · simp only [hx, if_false] at h ⊢
      exact ih h

theorem areplace_map_fst {κ β : Type} [DecidableEq κ] (l : List (κ × β)) (k : κ) (v : β) :
    (areplace l k v).map Prod.fst = l.map Prod.fst := by
  induction l with
  | nil => rfl
  | cons x xs ih =>
    simp only [areplace]
    by_cases hx : x.1 = k
    · simp [hx]
    · simp [hx, ih]

theorem alookup_areplace_self {κ β : Type} [DecidableEq κ] (l : List (κ × β)) (k : κ)
    (v w : β) (h : alookup l k = some w) : alookup (areplace l k v) k = some v := by
  induction l with
  | nil => simp [alookup] at h
  | cons x xs ih =>
    simp only [alookup, areplace] at h ⊢
    by_cases hx : x.1 = k
    · simp [hx, alookup]
    · simp only [hx, if_false] at h ⊢
      simp only [alookup, hx, if_false]
      exact ih h

theorem alookup_none_iff {κ β : Type} [DecidableEq κ] (l : List (κ × β)) (k : κ) :
    alookup l k = none ↔ k ∉ l.map Prod.fst := by
  induction l with
  | nil => simp [alookup]
  | cons x xs ih =>
    simp only [alookup, List.map_cons, List.mem_cons]
    by_cases hx : x.1 = k
    · constructor
      · intro h
        simp [hx] at h
      · intro h
        exact absurd (Or.inl hx.symm) h
    · simp only [hx, if_false]
      rw [ih]
      constructor
      · intro h hk
        rcases hk with hk | hk
        · exact hx hk.symm
        · exact h hk
      · intro h hk
        exact h (Or.inr hk)

theorem alookup_of_mem_nodup {κ β : Type} [DecidableEq κ] (l : List (κ × β)) (k : κ) (v : β)
    (hmem : (k, v) ∈ l) (hnd : (l.map Prod.fst).Nodup) : alookup l k = some v := by
  induction l with
  | nil => simp at hmem
  | cons x xs ih =>
    simp only [List.map_cons, List.nodup_cons] at hnd
    rcases List.mem_cons.mp hmem with heq | hmem'
    · rw [← heq]
      simp [alookup]
    · have hx : x.1 ≠ k := by
        intro hk
        exact hnd.1 (hk ▸ List.mem_map_of_mem Prod.fst hmem')
      simp only [alookup, hx, if_false]
      exact ih hmem' hnd.2

theorem alookup_isSome_of_mem_keys {κ β : Type} [DecidableEq κ] (l : List (κ × β)) (k : κ)
    (hmem : k ∈ l.map Prod.fst) : ∃ v, alookup l k = some v := by
  cases h : alookup l k with
  | none => exact absurd hmem ((alookup_none_iff l k).mp h)
  | some v => exact ⟨v, rfl⟩

theorem set_get?_self {α : Type} : ∀ (l : List α) (i : Nat) (a : α),
    l.get? i = some a → l.set i a = l := by
  intro l
  induction l with
  | nil => intro i a h; simp at h
  | cons x xs ih =>
    intro i a h
    cases i with
    | zero => simp_all
    | succ i =>
      simp only [List.get?_cons_succ] at h
      simp [List.set_cons_succ, ih i a h]

/-- Well-formedness of an attribute set: the backing store holds each name at
most once (the invariant of a map). -/

theorem Attributes.add_wf (a : Attributes) (name : Identifier) (v : Value)
    (h : a.wf) : ((a.add name v).1).wf := by
  unfold Attributes.add
  cases hl : alookup a.values name with
  | some w =>
    simp only [Attributes.wf, areplace_map_fst]
    exact h
  | none =>
    simp only [Attributes.wf, List.map_append, List.map_cons, List.map_nil]
    rw [List.nodup_append]
    refine ⟨h, List.nodup_singleton name, ?_⟩
    intro x hx hy
    simp only [List.mem_singleton] at hy
    rw [hy] at hx
    exact (alookup_none_iff a.values name).mp hl hx

theorem GraphNode.add_edge_wf (n : GraphNode) (sink : GraphNodeRef)
    (h : n.wf) : ((n.add_edge sink).1).wf := by
  unfold GraphNode.add_edge
  cases hb : binary_search (n.outgoing_edges.map Prod.fst) sink.id with
  | inl index => exact h
  | inr index =>
    obtain ⟨hle, hlo, hhi⟩ := binary_search_inr _ _ _ h.1 hb
    have hlen : index ≤ n.outgoing_edges.length := by
      simpa using hle
    refine ⟨?_, h.2.1, ?_⟩
    · simp only [map_insertIdx]
      exact pairwise_lt_insertIdx _ _ _ hle h.1 hlo hhi
    · intro e he
      rcases (List.mem_insertIdx hlen).mp he with heq | hmem
      · rw [heq]
        simp [Attributes.wf, Edge.new, Attributes.new]
      · exact h.2.2 e hmem

theorem GraphNode.updateEdgeAttrs_wf (n : GraphNode) (sink : GraphNodeRef)
    (f : Attributes → Attributes) (hf : ∀ a, a.wf → (f a).wf)
    (h : n.wf) : (n.updateEdgeAttrs sink f).wf := by
  unfold GraphNode.updateEdgeAttrs
  cases hb : binary_search (n.outgoing_edges.map Prod.fst) sink.id with
  | inl index =>
    dsimp only
    cases hg : n.outgoing_edges.get? index with
    | none => exact h
    | some e =>
      dsimp only
      have hmem : e ∈ n.outgoing_edges := List.get?_mem hg
      refine ⟨?_, h.2.1, ?_⟩
      · have hkeys : (n.outgoing_edges.set index (e.1, ⟨f e.2.attributes⟩)).map Prod.fst
            = n.outgoing_edges.map Prod.fst := by
          rw [List.map_set]
          apply set_get?_self
          rw [List.get?_eq_getElem?, List.getElem?_map, ← List.get?_eq_getElem?, hg]
          rfl
        rw [hkeys]
        exact h.1
      · intro e' he'
        rcases List.mem_or_eq_of_mem_set he' with hmem' | heq
        · exact h.2.2 e' hmem'
        · rw [heq]
          exact hf e.2.attributes (h.2.2 e hmem)
  | inr index => exact h

theorem Graph.updateNode_wf (g : Graph) (r : GraphNodeRef) (f : GraphNode → GraphNode)
    (hf : ∀ n, n.wf → (f n).wf) (h : g.wf) : (g.updateNode r f).wf := by
  unfold Graph.updateNode
  cases hg : g.graph_nodes.get? r.id with
  | none => exact h
  | some n =>
    dsimp only
    intro m hm
    rcases List.mem_or_eq_of_mem_set hm with hmem | heq
    · exact h m hmem
    · rw [heq]
      exact hf n (h n (List.get?_mem hg))

theorem add_syntax_node_graph_nodes (g : Graph) (n : Node) :
    ((g.add_syntax_node n).2).graph_nodes = g.graph_nodes := by
  simp only [Graph.add_syntax_node]
  cases h : alookup g.syntax_nodes n.id <;> simp [h]

theorem graph_new_wf : Graph.new.wf := by
  intro n hn
  simp [Graph.new] at hn

theorem graph_node_new_wf : GraphNode.new.wf := by
  refine ⟨?_, ?_, ?_⟩
  · simp [GraphNode.new]
  · simp [GraphNode.new, Attributes.new, Attributes.wf]
  · intro e he
    simp [GraphNode.new] at he

theorem step_wf (g g' : Graph) (hstep : Step g g') (h : g.wf) : g'.wf := by
  cases hstep with
  | add_syntax_node n =>
    rw [Graph.wf, add_syntax_node_graph_nodes]
    exact h
  | add_graph_node =>
    intro m hm
    unfold Graph.add_graph_node at hm
    dsimp only at hm
    rcases List.mem_append.mp hm with hmem | hmem
    · exact h m hmem
    · rw [List.mem_singleton.mp hmem]
      exact graph_node_new_wf
  | add_edge r sink =>
    exact Graph.updateNode_wf g r _ (fun n hn => GraphNode.add_edge_wf n sink hn) h
  | add_node_attr r name v =>
    exact Graph.updateNode_wf g r _
      (fun n hn => ⟨hn.1, Attributes.add_wf n.attributes name v hn.2.1, hn.2.2⟩) h
  | add_edge_attr r sink name v =>
    exact Graph.updateNode_wf g r _
      (fun n hn => GraphNode.updateEdgeAttrs_wf n sink _
        (fun a ha => Attributes.add_wf a name v ha) hn) h

theorem reachable_wf (g : Graph) (h : Relation.ReflTransGen Step Graph.new g) : g.wf := by
  induction h with
  | refl => exact graph_new_wf
  | tail hsteps hstep ih => exact step_wf _ _ hstep ih

theorem Graph.updateNode_node_count (g : Graph) (r : GraphNodeRef) (f : GraphNode → GraphNode) :
    (g.updateNode r f).node_count = g.node_count := by
  unfold Graph.updateNode
  cases g.graph_nodes.get? r.id with
  | none => rfl
  | some n => simp [Graph.node_count]

theorem step_node_count_mono (g g' : Graph) (hstep : Step g g') :
    g.node_count ≤ g'.node_count := by
  cases hstep with
  | add_syntax_node n =>
    unfold Graph.node_count
    rw [add_syntax_node_graph_nodes]
  | add_graph_node =>
    unfold Graph.node_count Graph.add_graph_node
    simp
  | add_edge r sink => rw [Graph.updateNode_node_count]
  | add_node_attr r name v => rw [Graph.updateNode_node_count]
  | add_edge_attr r sink name v => rw [Graph.updateNode_node_count]

theorem reachable_node_count_mono (g g' : Graph)
    (h : Relation.ReflTransGen Step g g') : g.node_count ≤ g'.node_count := by
  induction h with
  | refl => exact le_refl _
  | tail hsteps hstep ih => exact le_trans ih (step_node_count_mono _ _ hstep)


theorem serializeNode_field_id (p : Nat × GraphNode) :
    (serializeNode p).field "id" = Json.num p.1 := rfl

theorem serializeNode_field_edges (p : Nat × GraphNode) :
    (serializeNode p).field "edges" = Json.arr (p.2.outgoing_edges.map serializeEdge) := rfl

theorem serializeNode_field_attrs (p : Nat × GraphNode) :
    (serializeNode p).field "attrs" = p.2.attributes.serialize := rfl

theorem serializeEdge_field_sink (e : Nat × Edge) :
    (serializeEdge e).field "sink" = Json.num e.1 := rfl

theorem serializeEdge_field_attrs (e : Nat × Edge) :
    (serializeEdge e).field "attrs" = e.2.attributes.serialize := rfl

theorem enum_map_comp {A B : Type} (l : List A) (f : A -> B) :
    l.enum.map (fun p => f p.2) = l.map f := by
  have h : (fun p : Nat × A => f p.2) = f ∘ Prod.snd := rfl
  rw [h, ← List.map_map, List.enum_map_snd]

theorem orderedInsert_pairs_map_fst (p : Identifier × Value) :
    ∀ l : List (Identifier × Value),
      (List.orderedInsert pairLe p l).map Prod.fst
        = List.orderedInsert identLe p.1 (l.map Prod.fst) := by
  intro l
  induction l with
  | nil => rfl
  | cons q qs ih =>
    by_cases h : identLe p.1 q.1
    · simp [List.orderedInsert, pairLe, h]
    · simp [List.orderedInsert, pairLe, h, ih]

theorem insertionSort_pairs_map_fst :
    ∀ l : List (Identifier × Value),
      (List.insertionSort pairLe l).map Prod.fst
        = List.insertionSort identLe (l.map Prod.fst) := by
  intro l
  induction l with
  | nil => rfl
  | cons q qs ih =>
    simp only [List.insertionSort, List.map_cons]
    rw [orderedInsert_pairs_map_fst, ih]

theorem displayString_eq_spec (a : Attributes) (h : a.wf) :
    a.displayString = specAttributesText a := by
  unfold Attributes.displayString specAttributesText
  dsimp only
  rw [← insertionSort_pairs_map_fst, List.map_map]
  apply congrArg String.join
  apply List.map_congr_left
  intro p hp
  have hmem : p ∈ a.values :=
    (List.perm_insertionSort pairLe a.values).mem_iff.mp hp
  have hlook : alookup a.values p.1 = some p.2 :=
    alookup_of_mem_nodup a.values p.1 p.2 hmem h
  simp [Function.comp, hlook]


theorem into_boolean_ok_iff (v : Value) (b : Bool) :
    v.into_boolean = Except.ok b ↔ v = Value.Boolean b := by
  cases v <;> simp [Value.into_boolean]

theorem into_integer_ok_iff (v : Value) (n : Nat) :
    v.into_integer = Except.ok n ↔ v = Value.Integer n := by
  cases v <;> simp [Value.into_integer]

theorem into_string_ok_iff (v : Value) (s : Identifier) :
    v.into_string = Except.ok s ↔ v = Value.String s := by
  cases v <;> simp [Value.into_string]

theorem into_list_ok_iff (v : Value) (l : ValueList) :
    v.into_list = Except.ok l ↔ v = Value.List l := by
  cases v <;> simp [Value.into_list]

theorem into_graph_node_ref_ok_iff (v : Value) (r : GraphNodeRef) :
    v.into_graph_node_ref = Except.ok r ↔ v = Value.GraphNode r := by
  cases v <;> simp [Value.into_graph_node_ref]

theorem into_syntax_node_ref_ok_iff (v : Value) (r : SyntaxNodeRef) :
    v.into_syntax_node_ref = Except.ok r ↔ v = Value.SyntaxNode r := by
  cases v <;> simp [Value.into_syntax_node_ref]

theorem into_boolean_error (v : Value) (h : ∀ b, v ≠ Value.Boolean b) :
    v.into_boolean = Except.error (.ExpectedBoolean ("got " ++ v.display)) := by
  cases v
  case Boolean b => exact absurd rfl (h b)
  all_goals rfl

theorem into_integer_error (v : Value) (h : ∀ n, v ≠ Value.Integer n) :
    v.into_integer = Except.error (.ExpectedInteger ("got " ++ v.display)) := by
  cases v
  case Integer n => exact absurd rfl (h n)
  all_goals rfl

theorem into_string_error (v : Value) (h : ∀ s, v ≠ Value.String s) :
    v.into_string = Except.error (.ExpectedString ("got " ++ v.display)) := by
  cases v
  case String s => exact absurd rfl (h s)
  all_goals rfl

theorem into_list_error (v : Value) (h : ∀ l, v ≠ Value.List l) :
    v.into_list = Except.error (.ExpectedList ("got " ++ v.display)) := by
  cases v
  case List l => exact absurd rfl (h l)
  all_goals rfl

theorem into_graph_node_ref_error (v : Value) (h : ∀ r, v ≠ Value.GraphNode r) :
    v.into_graph_node_ref = Except.error (.ExpectedGraphNode ("got " ++ v.display)) := by
  cases v
  case GraphNode r => exact absurd rfl (h r)
  all_goals rfl

theorem into_syntax_node_ref_error (v : Value) (h : ∀ r, v ≠ Value.SyntaxNode r) :
    v.into_syntax_node_ref = Except.error (.ExpectedSyntaxNode ("got " ++ v.display)) := by
  cases v
  case SyntaxNode r => exact absurd rfl (h r)
  all_goals rfl

theorem as_boolean_eq (v : Value) : v.as_boolean = v.into_boolean := by cases v <;> rfl

theorem as_integer_eq (v : Value) : v.as_integer = v.into_integer := by cases v <;> rfl

theorem as_str_eq (v : Value) : v.as_str = v.into_string := by cases v <;> rfl

theorem as_list_eq (v : Value) : v.as_list = v.into_list := by cases v <;> rfl

theorem as_graph_node_ref_eq (v : Value) :
    v.as_graph_node_ref = v.into_graph_node_ref := by cases v <;> rfl

theorem as_syntax_node_ref_eq (v : Value) :
    v.as_syntax_node_ref = v.into_syntax_node_ref := by cases v <;> rfl

/-- C10: each type coercion succeeds exactly on its own variant, otherwise
fails with the matching error kind carrying the description of the actual
value; the borrowing variants behave exactly as the consuming ones, and all
are pure functions of the value (mutation-freedom is inherent to the
functional embedding). -/
theorem value_coercions (v : Value) :
    (∀ b, v.into_boolean = Except.ok b ↔ v = Value.Boolean b) ∧
    ((∀ b, v ≠ Value.Boolean b) →
      v.into_boolean = Except.error (.ExpectedBoolean ("got " ++ v.display))) ∧
    v.as_boolean = v.into_boolean ∧
    (∀ n, v.into_integer = Except.ok n ↔ v = Value.Integer n) ∧
    ((∀ n, v ≠ Value.Integer n) →
      v.into_integer = Except.error (.ExpectedInteger ("got " ++ v.display))) ∧
    v.as_integer = v.into_integer ∧
    (∀ s, v.into_string = Except.ok s ↔ v = Value.String s) ∧
    ((∀ s, v ≠ Value.String s) →
      v.into_string = Except.error (.ExpectedString ("got " ++ v.display))) ∧
    v.as_str = v.into_string ∧
    (∀ l, v.into_list = Except.ok l ↔ v = Value.List l) ∧
    ((∀ l, v ≠ Value.List l) →
      v.into_list = Except.error (.ExpectedList ("got " ++ v.display))) ∧
    v.as_list = v.into_list ∧
    (∀ r, v.into_graph_node_ref = Except.ok r ↔ v = Value.GraphNode r) ∧
    ((∀ r, v ≠ Value.GraphNode r) →
      v.into_graph_node_ref = Except.error (.ExpectedGraphNode ("got " ++ v.display))) ∧
    v.as_graph_node_ref = v.into_graph_node_ref ∧
    (∀ r, v.into_syntax_node_ref = Except.ok r ↔ v = Value.SyntaxNode r) ∧
    ((∀ r, v ≠ Value.SyntaxNode r) →
      v.into_syntax_node_ref = Except.error (.ExpectedSyntaxNode ("got " ++ v.display))) ∧
    v.as_syntax_node_ref = v.into_syntax_node_ref :=
  ⟨into_boolean_ok_iff v, into_boolean_error v, as_boolean_eq v,
   into_integer_ok_iff v, into_integer_error v, as_integer_eq v,
   into_string_ok_iff v, into_string_error v, as_str_eq v,
   into_list_ok_iff v, into_list_error v, as_list_eq v,
   into_graph_node_ref_ok_iff v, into_graph_node_ref_error v, as_graph_node_ref_eq v,
   into_syntax_node_ref_ok_iff v, into_syntax_node_ref_error v, as_syntax_node_ref_eq v⟩

/-- Witness for C10: the coercions of the null value fail with the matching
error kinds and descriptions, and the boolean coercion of a boolean value
succeeds. -/
theorem value_coercions_witness :
    Value.Null.into_boolean = Except.error (ExecutionError.ExpectedBoolean "got #null") ∧
    Value.Null.into_integer = Except.error (ExecutionError.ExpectedInteger "got #null") ∧
    (Value.Boolean true).into_boolean = Except.ok true :=
  ⟨(value_coercions Value.Null).2.1 (fun b => by simp),
   (value_coercions Value.Null).2.2.2.2.1 (fun n => by simp),
   ((value_coercions (Value.Boolean true)).1 true).mpr rfl⟩

/-- C2: adding an attribute under an absent name succeeds, and a second add
of the same name on the result reports a conflict through the error return. -/
theorem attributes_add_conflict (a : Attributes) (name : Identifier) (v1 v2 : Value)
    (h : a.get name = none) :
    (a.add name v1).2 = Except.ok () ∧
    (((a.add name v1).1).add name v2).2 = Except.error () := by
  have h2 : alookup (a.values ++ [(name, v1)]) name = some v1 :=
    alookup_append_self a.values name v1 h
  constructor
  · simp [Attributes.add, Attributes.get] at h ⊢
    simp [h]
  · simp only [Attributes.get] at h
    simp [Attributes.add, h, h2]

/-- Witness for C2 on an empty attribute set. -/
theorem attributes_add_conflict_witness :
    (Attributes.new.add "k" Value.Null).2 = Except.ok () ∧
    ((Attributes.new.add "k" Value.Null).1.add "k" (Value.Integer 1)).2
      = Except.error () :=
  attributes_add_conflict Attributes.new "k" Value.Null (Value.Integer 1) rfl

/-- C3: when the name is already present, the add reports the conflict but
nevertheless replaces the stored value: the subsequent get returns the new
value, not the original one. -/
theorem attributes_add_overwrites (a : Attributes) (name : Identifier) (v1 v2 : Value)
    (h : a.get name = some v1) :
    (a.add name v2).2 = Except.error () ∧
    (a.add name v2).1.get name = some v2 := by
  simp only [Attributes.get] at h
  constructor
  · simp [Attributes.add, h]
  · simp only [Attributes.add, h, Attributes.get]
    exact alookup_areplace_self a.values name v2 v1 h

/-- Witness for C3: writing k twice stores the second value. -/
theorem attributes_add_overwrites_witness :
    ((Attributes.new.add "k" Value.Null).1.add "k" (Value.Integer 7)).2
      = Except.error () ∧
    ((Attributes.new.add "k" Value.Null).1.add "k" (Value.Integer 7)).1.get "k"
      = some (Value.Integer 7) :=
  attributes_add_overwrites (Attributes.new.add "k" Value.Null).1 "k"
    Value.Null (Value.Integer 7) rfl

/-- C7: interning the same syntax node twice returns equal references, the
second call leaves the graph unchanged, and the reference carries the id,
kind and start position of the node. -/
theorem add_syntax_node_idempotent (g : Graph) (n : Node) :
    ((g.add_syntax_node n).2.add_syntax_node n).1 = (g.add_syntax_node n).1 ∧
    ((g.add_syntax_node n).2.add_syntax_node n).2 = (g.add_syntax_node n).2 ∧
    (g.add_syntax_node n).1.index = n.id ∧
    (g.add_syntax_node n).1.kind = n.kind ∧
    (g.add_syntax_node n).1.position = n.start_position := by
  cases h : alookup g.syntax_nodes n.id with
  | some v => simp [Graph.add_syntax_node, h]
  | none =>
    have h2 := alookup_append_self g.syntax_nodes n.id n h
    simp [Graph.add_syntax_node, h, h2]

/-- C8: allocating a graph node returns the reference to a fresh slot at the
old count, grows the count by one, stores an empty node there, and the new
reference differs from every previously mintable reference. -/
theorem add_graph_node_fresh (g : Graph) :
    (g.add_graph_node).1.id = g.node_count ∧
    (g.add_graph_node).2.node_count = g.node_count + 1 ∧
    (g.add_graph_node).2.getNode (g.add_graph_node).1 = some GraphNode.new ∧
    GraphNode.new.outgoing_edges = [] ∧
    GraphNode.new.attributes.values = [] ∧
    (∀ r : GraphNodeRef, r.id < g.node_count → (g.add_graph_node).1 ≠ r) := by
  refine ⟨rfl, ?_, ?_, rfl, rfl, ?_⟩
  · simp [Graph.add_graph_node, Graph.node_count]
  · show (g.graph_nodes ++ [GraphNode.new]).get? g.graph_nodes.length
      = some GraphNode.new
    rw [List.get?_eq_getElem?]
    exact List.getElem?_concat_length g.graph_nodes GraphNode.new
  · intro r hr heq
    have hid : g.node_count = r.id := congrArg GraphNodeRef.id heq
    omega

/-- Witness for C8 on the worked two-node example graph. -/
theorem add_graph_node_fresh_witness :
    (gExample.add_graph_node).1 ≠ (⟨0⟩ : GraphNodeRef) ∧
    (gExample.add_graph_node).2.node_count = 3 :=
  ⟨(add_graph_node_fresh gExample).2.2.2.2.2 ⟨0⟩ (by decide),
   ((add_graph_node_fresh gExample).2.1).trans rfl⟩


/-- C4: creating the same edge twice: the first call inserts a fresh edge and
returns it through the success branch, the second call returns the same edge
(same index, same stored entry) through the already-existed branch without
changing the node, and the edge count grows by exactly one over the two
calls. -/
theorem add_edge_idempotent (node : GraphNode) (sink : GraphNodeRef)
    (hsorted : List.Pairwise (· < ·) (node.outgoing_edges.map Prod.fst))
    (habs : node.get_edge sink = none) :
    ∃ i, (node.add_edge sink).2 = Except.ok i ∧
      ((node.add_edge sink).1.add_edge sink).2 = Except.error i ∧
      ((node.add_edge sink).1.add_edge sink).1 = (node.add_edge sink).1 ∧
      (node.add_edge sink).1.edge_count = node.edge_count + 1 ∧
      (node.add_edge sink).1.outgoing_edges.get? i = some (sink.id, Edge.new) := by
  cases hb : binary_search (node.outgoing_edges.map Prod.fst) sink.id with
  | inl j =>
    exfalso
    obtain ⟨hj, hkey⟩ := binary_search_inl _ _ _ hsorted hb
    have hjlen : j < node.outgoing_edges.length := by simpa using hj
    unfold GraphNode.get_edge at habs
    rw [hb] at habs
    dsimp only at habs
    rw [List.get?_eq_getElem?, List.getElem?_eq_getElem hjlen] at habs
    simp at habs
  | inr i =>
    obtain ⟨hle, hlo, hhi⟩ := binary_search_inr _ _ _ hsorted hb
    have hilen : i ≤ node.outgoing_edges.length := by simpa using hle
    have hadd : node.add_edge sink
        = ({ node with
              outgoing_edges := node.outgoing_edges.insertIdx i (sink.id, Edge.new) },
           Except.ok i) := by
      unfold GraphNode.add_edge
      rw [hb]
    have hks2 : (node.outgoing_edges.insertIdx i (sink.id, Edge.new)).map Prod.fst
        = (node.outgoing_edges.map Prod.fst).insertIdx i sink.id :=
      map_insertIdx Prod.fst node.outgoing_edges i (sink.id, Edge.new)
    have hlen2 : ((node.outgoing_edges.map Prod.fst).insertIdx i sink.id).length
        = (node.outgoing_edges.map Prod.fst).length + 1 :=
      List.length_insertIdx i _ hle
    have hgeti : ∀ hh : i < ((node.outgoing_edges.map Prod.fst).insertIdx i sink.id).length,
        ((node.outgoing_edges.map Prod.fst).insertIdx i sink.id)[i] = sink.id := by
      intro hh
      exact List.getElem_insertIdx_self _ _ i hle
    have hs2 : List.Pairwise (· < ·)
        ((node.outgoing_edges.map Prod.fst).insertIdx i sink.id) :=
      pairwise_lt_insertIdx _ i sink.id hle hsorted hlo hhi
    have hb2 : binary_search
        ((node.outgoing_edges.insertIdx i (sink.id, Edge.new)).map Prod.fst) sink.id
        = Sum.inl i := by
      rw [hks2]
      cases hb2 : binary_search
          ((node.outgoing_edges.map Prod.fst).insertIdx i sink.id) sink.id with
      | inr m =>
        exfalso
        apply binary_search_inr_not_mem _ _ _ hs2 hb2
        exact List.mem_iff_getElem.mpr ⟨i, by omega, hgeti (by omega)⟩
      | inl m =>
        obtain ⟨hm, hmk⟩ := binary_search_inl _ _ _ hs2 hb2
        rw [List.getD_eq_getElem _ 0 hm] at hmk
        have hmi : m = i := by
          rcases Nat.lt_trichotomy m i with hlt | heq | hgt
          · have hmono := List.pairwise_iff_getElem.mp hs2 m i hm (by omega) hlt
            rw [hgeti (by omega)] at hmono
            omega
          · exact heq
          · have hmono := List.pairwise_iff_getElem.mp hs2 i m (by omega) hm hgt
            rw [hgeti (by omega)] at hmono
            omega
        rw [hmi]
    refine ⟨i, by rw [hadd], ?_, ?_, ?_, ?_⟩
    · rw [hadd]
      unfold GraphNode.add_edge
      dsimp only
      rw [hb2]
    · rw [hadd]
      unfold GraphNode.add_edge
      dsimp only
      rw [hb2]
    · rw [hadd]
      show (node.outgoing_edges.insertIdx i (sink.id, Edge.new)).length
        = node.outgoing_edges.length + 1
      exact List.length_insertIdx i _ hilen
    · rw [hadd]
      show (node.outgoing_edges.insertIdx i (sink.id, Edge.new)).get? i
        = some (sink.id, Edge.new)
      have hb3 : i < (node.outgoing_edges.insertIdx i (sink.id, Edge.new)).length := by
        rw [List.length_insertIdx i _ hilen]
        omega
      rw [List.get?_eq_getElem?, List.getElem?_eq_getElem hb3,
        List.getElem_insertIdx_self node.outgoing_edges (sink.id, Edge.new) i hilen]

/-- Witness for C4: the first edge added to a fresh node. -/
theorem add_edge_idempotent_witness :
    ∃ i, (GraphNode.new.add_edge ⟨1⟩).2 = Except.ok i ∧
      ((GraphNode.new.add_edge ⟨1⟩).1.add_edge ⟨1⟩).2 = Except.error i ∧
      ((GraphNode.new.add_edge ⟨1⟩).1.add_edge ⟨1⟩).1 = (GraphNode.new.add_edge ⟨1⟩).1 ∧
      (GraphNode.new.add_edge ⟨1⟩).1.edge_count = GraphNode.new.edge_count + 1 ∧
      (GraphNode.new.add_edge ⟨1⟩).1.outgoing_edges.get? i
        = some ((⟨1⟩ : GraphNodeRef).id, Edge.new) :=
  add_edge_idempotent GraphNode.new ⟨1⟩ (by decide) rfl


theorem gExample_reachable : Relation.ReflTransGen Step Graph.new gExample := by
  have h1 : Step Graph.new (Graph.new.add_graph_node).2 :=
    Step.add_graph_node Graph.new
  have h2 := Step.add_graph_node (Graph.new.add_graph_node).2
  have h3 := Step.add_edge ((Graph.new.add_graph_node).2.add_graph_node).2 ⟨0⟩ ⟨1⟩
  have h4 := Step.add_node_attr
    (((Graph.new.add_graph_node).2.add_graph_node).2.updateNode ⟨0⟩
      (fun node => (node.add_edge ⟨1⟩).1))
    ⟨0⟩ "name" (Value.String "x")
  have h5 := Step.add_edge_attr
    ((((Graph.new.add_graph_node).2.add_graph_node).2.updateNode ⟨0⟩
        (fun node => (node.add_edge ⟨1⟩).1)).updateNode ⟨0⟩
      (fun node => { node with attributes := (node.attributes.add "name" (Value.String "x")).1 }))
    ⟨0⟩ ⟨1⟩ "p" (Value.Integer 10)
  exact .tail (.tail (.tail (.tail (.single h1) h2) h3) h4) h5

/-- C5: in every graph reachable from the empty graph through the exposed
mutations, the outgoing-edge list of every node is strictly sorted by sink
index and holds no duplicate sink, so there is at most one edge per ordered
(source, sink) pair; in particular add_edge keeps sortedness and never
creates a duplicate entry. -/
theorem reachable_edges_sorted_dedup (g : Graph)
    (h : Relation.ReflTransGen Step Graph.new g) :
    ∀ n ∈ g.graph_nodes,
      List.Pairwise (· < ·) (n.outgoing_edges.map Prod.fst) ∧
      (n.outgoing_edges.map Prod.fst).Nodup := by
  have hwf := reachable_wf g h
  intro n hn
  exact ⟨(hwf n hn).1, ((hwf n hn).1).imp (fun hab => Nat.ne_of_lt hab)⟩

/-- Witness for C5 on a one-step reachable graph. -/
theorem reachable_edges_sorted_dedup_witness :
    List.Pairwise (· < ·) (GraphNode.new.outgoing_edges.map Prod.fst) ∧
    (GraphNode.new.outgoing_edges.map Prod.fst).Nodup :=
  reachable_edges_sorted_dedup (Graph.new.add_graph_node).2
    (Relation.ReflTransGen.single (Step.add_graph_node Graph.new))
    GraphNode.new (List.mem_singleton.mpr rfl)

/-- C6: along any sequence of exposed mutations the node count never
decreases and no arena entry is removed, every reference below the count of
the starting state still indexes a valid slot in the later state, every
reference handed out by iter_nodes is below the count, and the reference
minted by add_graph_node is below the count of its post state — so indexing
the graph with a minted reference never fails. -/
theorem graph_node_refs_valid (g g' : Graph) (h : Relation.ReflTransGen Step g g') :
    g.node_count ≤ g'.node_count ∧
    (∀ r : GraphNodeRef, r.id < g.node_count → (g'.getNode r).isSome) ∧
    (∀ r ∈ g.iter_nodes, r.id < g.node_count) ∧
    (g.add_graph_node).1.id < (g.add_graph_node).2.node_count := by
  have hmono := reachable_node_count_mono g g' h
  refine ⟨hmono, ?_, ?_, ?_⟩
  · intro r hr
    have hlt : r.id < g'.graph_nodes.length := lt_of_lt_of_le hr hmono
    unfold Graph.getNode
    rw [List.get?_eq_getElem?, List.getElem?_eq_getElem hlt]
    rfl
  · intro r hr
    unfold Graph.iter_nodes at hr
    obtain ⟨i, hi, hri⟩ := List.mem_map.mp hr
    rw [← hri]
    exact List.mem_range.mp hi
  · simp [Graph.add_graph_node, Graph.node_count]

/-- Witness for C6: a reference minted before a mutation still indexes a
valid slot afterwards. -/
theorem graph_node_refs_valid_witness :
    ((gExample.add_graph_node).2.getNode ⟨0⟩).isSome :=
  (graph_node_refs_valid gExample (gExample.add_graph_node).2
    (Relation.ReflTransGen.single (Step.add_graph_node gExample))).2.1 ⟨0⟩ (by decide)


/-- C9: on every well-formed graph (the invariant every reachable graph
satisfies), the pretty-text dump equals the dump the specification
describes: per node in arena-index order a node line, the attributes of the
node one per line under the lexicographic order of the keys, then one edge
line per outgoing edge in ascending sink order, each followed by the
attributes of the edge in the same order. -/
theorem pretty_print_matches_spec (g : Graph) (hwf : g.wf) :
    g.pretty_print = specPrettyPrint g := by
  unfold Graph.pretty_print specPrettyPrint
  apply congrArg String.join
  apply List.map_congr_left
  intro p hp
  have hn : p.2 ∈ g.graph_nodes := by
    obtain ⟨hlt, heq⟩ := List.mem_enum hp
    rw [heq]
    exact List.getElem_mem hlt
  have hw := hwf p.2 hn
  have hsorted : List.Sorted edgeLe p.2.outgoing_edges :=
    (List.pairwise_map.mp hw.1).imp (fun hab => le_of_lt hab)
  have hedges : String.join (p.2.outgoing_edges.map (fun e =>
      "edge " ++ toString p.1 ++ " -> " ++ toString e.1 ++ "\n"
        ++ e.2.attributes.displayString))
      = String.join (p.2.outgoing_edges.map (fun e =>
      "edge " ++ toString p.1 ++ " -> " ++ toString e.1 ++ "\n"
        ++ specAttributesText e.2.attributes)) := by
    apply congrArg String.join
    apply List.map_congr_left
    intro e he
    rw [displayString_eq_spec e.2.attributes (hw.2.2 e he)]
  rw [displayString_eq_spec p.2.attributes hw.2.1, hedges,
    List.Sorted.insertionSort_eq hsorted]

/-- Witness for C9 on the worked two-node example graph. -/
theorem pretty_print_matches_spec_witness :
    gExample.pretty_print = specPrettyPrint gExample :=
  pretty_print_matches_spec gExample (by
    unfold Graph.wf GraphNode.wf Attributes.wf
    decide)


/-- C1 counterexample: on the graph whose only node received attribute b
before attribute a, the serialization emits the attrs keys in store order
b, a — not in lexicographic order — so the ordering property the claim
asserts fails at this input. -/
theorem serialization_not_lex_ordered : ¬ serializationDeterministicClaim gBad := by
  intro h
  exact absurd (h.2.2.1 ["b", "a"] (by decide)) (by decide)

/-- C1 amended: the structured serialization emits node records in
arena-index order and the edge records of each node in ascending sink order,
but each attrs map is emitted in the iteration order of the unordered
backing store, with no sorting applied; repeat serialization of the same
stored state is identical only because the output is a function of that
state. -/
theorem serialize_structure (g : Graph) (hwf : g.wf) :
    serializedNodeIds g = List.range g.node_count ∧
    (∀ sinks ∈ serializedEdgeSinks g, List.Pairwise (· < ·) sinks) ∧
    serializedNodeAttrKeys g
      = g.graph_nodes.map (fun n => n.attributes.values.map Prod.fst) ∧
    serializedEdgeAttrKeys g
      = g.graph_nodes.map (fun n =>
          n.outgoing_edges.map (fun e => e.2.attributes.values.map Prod.fst)) := by
  refine ⟨?_, ?_, ?_, ?_⟩
  · show (g.graph_nodes.enum.map serializeNode).map (fun nj => (nj.field "id").asNum)
      = List.range g.node_count
    rw [List.map_map]
    exact List.enum_map_fst g.graph_nodes
  · have hser : serializedEdgeSinks g
        = g.graph_nodes.enum.map (fun p => p.2.outgoing_edges.map Prod.fst) := by
      show (g.graph_nodes.enum.map serializeNode).map
          (fun nj => ((nj.field "edges").elems).map (fun ej => (ej.field "sink").asNum))
        = g.graph_nodes.enum.map (fun p => p.2.outgoing_edges.map Prod.fst)
      rw [List.map_map]
      apply List.map_congr_left
      intro p hp
      show ((serializeNode p).field "edges").elems.map (fun ej => (ej.field "sink").asNum)
          = p.2.outgoing_edges.map Prod.fst
      rw [serializeNode_field_edges]
      show (p.2.outgoing_edges.map serializeEdge).map (fun ej => (ej.field "sink").asNum)
          = p.2.outgoing_edges.map Prod.fst
      rw [List.map_map]
      rfl
    intro sinks hs
    rw [hser] at hs
    obtain ⟨p, hp, hps⟩ := List.mem_map.mp hs
    have hn : p.2 ∈ g.graph_nodes := by
      obtain ⟨hlt, heq⟩ := List.mem_enum hp
      rw [heq]
      exact List.getElem_mem hlt
    rw [← hps]
    exact (hwf p.2 hn).1
  · show (g.graph_nodes.enum.map serializeNode).map
        (fun nj => ((nj.field "attrs").objFields).map Prod.fst)
      = g.graph_nodes.map (fun n => n.attributes.values.map Prod.fst)
    rw [List.map_map]
    calc g.graph_nodes.enum.map
          ((fun nj => ((nj.field "attrs").objFields).map Prod.fst) ∘ serializeNode)
        = g.graph_nodes.enum.map (fun p => p.2.attributes.values.map Prod.fst) := by
          apply List.map_congr_left
          intro p hp
          show ((serializeNode p).field "attrs").objFields.map Prod.fst
              = p.2.attributes.values.map Prod.fst
          rw [serializeNode_field_attrs]
          show (p.2.attributes.values.map (fun q => (q.1, q.2.serialize))).map Prod.fst
              = p.2.attributes.values.map Prod.fst
          rw [List.map_map]
          rfl
      _ = g.graph_nodes.map (fun n => n.attributes.values.map Prod.fst) :=
          enum_map_comp g.graph_nodes (fun n => n.attributes.values.map Prod.fst)
  · show (g.graph_nodes.enum.map serializeNode).map
        (fun nj => ((nj.field "edges").elems).map (fun ej =>
          ((ej.field "attrs").objFields).map Prod.fst))
      = g.graph_nodes.map (fun n =>
          n.outgoing_edges.map (fun e => e.2.attributes.values.map Prod.fst))
    rw [List.map_map]
    calc g.graph_nodes.enum.map
          ((fun nj => ((nj.field "edges").elems).map (fun ej =>
            ((ej.field "attrs").objFields).map Prod.fst)) ∘ serializeNode)
        = g.graph_nodes.enum.map (fun p =>
            p.2.outgoing_edges.map (fun e => e.2.attributes.values.map Prod.fst)) := by
          apply List.map_congr_left
          intro p hp
          show ((serializeNode p).field "edges").elems.map (fun ej =>
              ((ej.field "attrs").objFields).map Prod.fst)
            = p.2.outgoing_edges.map (fun e => e.2.attributes.values.map Prod.fst)
          rw [serializeNode_field_edges]
          show (p.2.outgoing_edges.map serializeEdge).map (fun ej =>
              ((ej.field "attrs").objFields).map Prod.fst)
            = p.2.outgoing_edges.map (fun e => e.2.attributes.values.map Prod.fst)
          rw [List.map_map]
          apply List.map_congr_left
          intro e he
          show ((serializeEdge e).field "attrs").objFields.map Prod.fst
              = e.2.attributes.values.map Prod.fst
          rw [serializeEdge_field_attrs]
          show (e.2.attributes.values.map (fun q => (q.1, q.2.serialize))).map Prod.fst
              = e.2.attributes.values.map Prod.fst
          rw [List.map_map]
          rfl
      _ = g.graph_nodes.map (fun n =>
            n.outgoing_edges.map (fun e => e.2.attributes.values.map Prod.fst)) :=
          enum_map_comp g.graph_nodes (fun n =>
            n.outgoing_edges.map (fun e => e.2.attributes.values.map Prod.fst))

/-- Witness for the amended C1 on the worked two-node example graph. -/
theorem serialize_structure_witness :
    serializedNodeIds gExample = List.range 2 :=
  ((serialize_structure gExample (by
    unfold Graph.wf GraphNode.wf Attributes.wf
    decide)).1).trans rfl

end TSG
